import Mathlib

/-!
Shallow embedding of the data-loading and view-building logic of
`ga4_country_dashboard_streamlit.py`.

Modelling conventions:
* pandas/numpy floating-point values are modelled as exact rationals (`Rat`);
  a missing value (`NaN`) is modelled as `none` in `Option Rat`.
* an uploaded CSV is modelled with the fixed schema the script expects
  (`RawRow`); every cell is kept as the literal text of the file.  The one
  column whose *header name* the script inspects (`"Total revenue"`) is
  modelled explicitly (`RawCSV.revenueHeader`), because the script checks
  that name before it strips whitespace from column names.
* `pd.read_csv` column-type inference is modelled per column: a column is
  numeric when every cell is a decimal literal or empty, otherwise it is an
  object (string) column.  (The numeric round-trip of exotic forms such as
  scientific notation is not modelled; no claim depends on it.)
* code that raises (`astype(float)` on a bad string, arithmetic on an object
  column inside the `np.where` calls) is modelled with `Except String`.
-/

namespace GA4

/-- Decidable equality of `Except` results, used to evaluate the embedding on
concrete inputs. -/
instance {ε α : Type} [DecidableEq ε] [DecidableEq α] :
    DecidableEq (Except ε α) := fun x y =>
  match x, y with
  | .ok a, .ok b =>
    if h : a = b then isTrue (by rw [h])
    else isFalse (fun he => h (Except.ok.inj he))
  | .error a, .error b =>
    if h : a = b then isTrue (by rw [h])
    else isFalse (fun he => h (Except.error.inj he))
  | .ok _, .error _ => isFalse (fun he => Except.noConfusion he)
  | .error _, .ok _ => isFalse (fun he => Except.noConfusion he)

/-- Numeric value of a decimal digit character. -/
def digitVal (c : Char) : Nat := c.toNat - 48

/-- Value of a digit string read as an integer. -/
def digitsVal (cs : List Char) : Nat :=
  cs.foldl (fun a c => a * 10 + digitVal c) 0

/-- Python `float(s)` restricted to plain decimal literals: an optional sign
followed by digits with at most one point and at least one digit; the value
`d₁…dₖ.e₁…eₘ` is the exact rational `d₁…dₖe₁…eₘ / 10^m`.
`none` models the `ValueError` raised by `float` on anything else
(e.g. `"1.2.3"`, `"-"`, `"."`, `"1-2"`). -/
def parseFloat (s : String) : Option Rat :=
  let cs := s.toList
  let signed : Bool × List Char :=
    match cs with
    | '-' :: rest => (true, rest)
    | '+' :: rest => (false, rest)
    | _ => (false, cs)
  let body := signed.2
  if body.all (fun c => c.isDigit || c = '.') &&
      body.count '.' ≤ 1 &&
      body.any Char.isDigit then
    let ip := body.takeWhile (fun c => c ≠ '.')
    let fp := (body.dropWhile (fun c => c ≠ '.')).drop 1
    let v : Rat := mkRat (digitsVal ip * 10 ^ fp.length + digitsVal fp) (10 ^ fp.length)
    some (if signed.1 then -v else v)
  else
    none

/-- The revenue-cleaning regex of the script:
`.str.replace(r"[^0-9.\-]", "", regex=True)` keeps only digits, `.` and
`-`. -/
def stripCurrency (s : String) : String :=
  String.mk (s.toList.filter (fun c => c.isDigit || c = '.' || c = '-'))

/-- One cell of the revenue column after the strip, continuing the pipeline
`.replace("", np.nan).astype(float)`: the empty remainder becomes missing,
anything else goes through `float`, whose failure (`ValueError`) aborts the
whole `astype` call and with it the load. -/
def astypeFloatCell (s : String) : Except String (Option Rat) :=
  if s = "" then .ok none
  else
    match parseFloat s with
    | some v => .ok (some v)
    | none => .error "ValueError"

/-- One cell under `pd.to_numeric(..., errors := coerce)` (and also the value
a numeric `read_csv` column carries): empty or unparsable text becomes
missing, never an error. -/
def toNumericCell (s : String) : Option Rat :=
  if s = "" then none else parseFloat s

/-- `pd.read_csv` type inference for one cell: `some none` for an empty cell
(`NaN` inside a still-numeric column), `some (some v)` for a decimal literal,
`none` when the cell forces the whole column to be an object column. -/
def readCell (s : String) : Option (Option Rat) :=
  if s = "" then some none
  else (parseFloat s).map some

/-- One data row of the uploaded CSV, with every cell as literal text.
Field order follows the expected column list in the script header. -/
structure RawRow where
  country : String
  activeUsers : String
  newUsers : String
  returningUsers : String
  engagedSessions : String
  avgEngagementTime : String
  bounceRate : String
  addToCarts : String
  checkouts : String
  purchases : String
  itemsPurchased : String
  revenueRaw : String
  deriving DecidableEq

/-- An uploaded CSV.  `revenueHeader` is the header text of the revenue
column when that column is present (`none` when the file has no revenue
column, in which case `revenueRaw` cells are ignored); the other headers are
not inspected by name before stripping, so they are kept implicit in the
fixed schema. -/
structure RawCSV where
  revenueHeader : Option String
  rows : List RawRow
  deriving DecidableEq

/-- One row of the transformed table produced by `load_data`. -/
structure Row where
  country : String
  activeUsers : Option Rat
  newUsers : Option Rat
  returningUsers : Option Rat
  engagedSessions : Option Rat
  avgEngagementTime : Option Rat
  bounceRate : Option Rat
  addToCarts : Option Rat
  checkouts : Option Rat
  purchases : Option Rat
  itemsPurchased : Option Rat
  revenueNum : Option Rat
  aov : Option Rat
  revPerActiveUser : Option Rat
  atcRate : Option Rat
  checkoutRate : Option Rat
  purchaseRate : Option Rat
  unitsPerOrder : Option Rat
  deriving DecidableEq

/-- The `AOV` column:
`np.where(purch.replace(0, nan).notna(), rev / purch.replace(0, nan), nan)`.
The denominator is first mapped `0 ↦ NaN`; the kept branch divides, and a
missing numerator stays missing. -/
def aovOf (rev purch : Option Rat) : Option Rat :=
  match purch with
  | none => none
  | some p => if p = 0 then none else rev.map (fun x => x / p)

/-- The guarded divisions of the shape `np.where(den > 0, num / den, nan)`
(revenue per active user and the four funnel rates).  A missing denominator
fails the `> 0` test (`NaN > 0` is false), a missing numerator divides to
`NaN`. -/
def ratioPos (num den : Option Rat) : Option Rat :=
  match den with
  | none => none
  | some d => if 0 < d then num.map (fun x => x / d) else none

/-- Traversal of a list under `Except`, modelling a whole-column pandas
operation that raises on the first bad cell. -/
def exceptCol (f : α → Except String β) : List α → Except String (List β)
  | [] => .ok []
  | a :: l =>
    match f a, exceptCol f l with
    | .ok b, .ok bs => .ok (b :: bs)
    | .error e, _ => .error e
    | .ok _, .error e => .error e

/-- Traversal of a list under `Option`. -/
def optionCol (f : α → Option β) : List α → Option (List β)
  | [] => some []
  | a :: l =>
    match f a, optionCol f l with
    | some b, some bs => some (b :: bs)
    | _, _ => none

/-- `read_csv` inference for a whole column that is later used as an operand
of a `np.where` condition or division: if any cell fails to parse the column
is an object column and that arithmetic raises a `TypeError`. -/
def numericColumn (cells : List String) : Except String (List (Option Rat)) :=
  match optionCol readCell cells with
  | some vals => .ok vals
  | none => .error "TypeError"

/-- Assembles the transformed rows from the raw rows and the columns that
were computed column-wise (clean revenue and the five strictly numeric
operand columns); the five remaining metric columns only ever pass through
`pd.to_numeric(..., errors := coerce)` at the end of `load_data`, which acts
cell-wise as `toNumericCell`. -/
def assembleRows : List RawRow → List (Option Rat) → List (Option Rat) →
    List (Option Rat) → List (Option Rat) → List (Option Rat) →
    List (Option Rat) → List Row
  | r :: rs, rv :: rvs, a :: as2, c :: cs, k :: ks, p :: ps, it :: its =>
    { country := r.country
      activeUsers := a
      newUsers := toNumericCell r.newUsers
      returningUsers := toNumericCell r.returningUsers
      engagedSessions := toNumericCell r.engagedSessions
      avgEngagementTime := toNumericCell r.avgEngagementTime
      bounceRate := toNumericCell r.bounceRate
      addToCarts := c
      checkouts := k
      purchases := p
      itemsPurchased := it
      revenueNum := rv
      aov := aovOf rv p
      revPerActiveUser := ratioPos rv a
      atcRate := ratioPos c a
      checkoutRate := ratioPos k c
      purchaseRate := ratioPos p k
      unitsPerOrder := ratioPos it p } :: assembleRows rs rvs as2 cs ks ps its
  | _, _, _, _, _, _, _ => []

/-- `load_data` of the script, in source order:
1. `read_csv` (modelled by `RawCSV` plus the per-column dtype checks below);
2. the revenue clean, guarded by `"Total revenue" in df.columns` — checked
   against the *unstripped* header, and raising `ValueError` through
   `astype(float)` on a bad stripped remainder; absent column defaults the
   numeric revenue to `0.0`;
3. `df.columns = [c.strip() ...]` (no effect on the fixed schema here);
4. the six derived metrics; the `np.where` conditions and divisions raise
   `TypeError` when an operand column is an object column;
5. `pd.to_numeric(..., errors := coerce)` over the fixed column list, a
   cell-wise no-op on numeric columns and `toNumericCell` on object ones. -/
def loadData (csv : RawCSV) : Except String (List Row) :=
  let revCol : Except String (List (Option Rat)) :=
    if csv.revenueHeader = some "Total revenue" then
      exceptCol (fun r => astypeFloatCell (stripCurrency r.revenueRaw)) csv.rows
    else
      .ok (csv.rows.map (fun _ => some (0 : Rat)))
  match revCol with
  | .error e => .error e
  | .ok rev =>
    match numericColumn (csv.rows.map (fun r => r.purchases)) with
    | .error e => .error e
    | .ok purch =>
      match numericColumn (csv.rows.map (fun r => r.activeUsers)) with
      | .error e => .error e
      | .ok act =>
        match numericColumn (csv.rows.map (fun r => r.addToCarts)) with
        | .error e => .error e
        | .ok atc =>
          match numericColumn (csv.rows.map (fun r => r.checkouts)) with
          | .error e => .error e
          | .ok chk =>
            match numericColumn (csv.rows.map (fun r => r.itemsPurchased)) with
            | .error e => .error e
            | .ok items => .ok (assembleRows csv.rows rev act atc chk purch items)

/-! ### View builder (`load_data` callers, lines 100-125 and 210-215) -/

/-- `df[df["Country"].isin(selected_countries)]` (line 103). -/
def filterBySelection (tbl : List Row) (sel : List String) : List Row :=
  tbl.filter (fun r => sel.contains r.country)

/-- `sorted(df["Country"].unique().tolist())` (line 101): the distinct
country keys in ascending order. -/
def allCountries (tbl : List Row) : List String :=
  List.insertionSort (fun a b => a ≤ b) (tbl.map (fun r => r.country)).dedup

/-- pandas `Series.sum()` with its default `skipna=True`: missing cells
contribute nothing and the empty sum is `0`. -/
def pdSum (cells : List (Option Rat)) : Rat :=
  cells.foldl (fun a v => a + v.getD 0) 0

/-- Python `int(x)` on a float: truncation toward zero.  On an exact
rational this is `num.tdiv den` (the denominator is positive). -/
def pyInt (q : Rat) : Int := q.num.tdiv q.den

/-- `int(df["Active users"].sum())` (line 108). -/
def totalActive (tbl : List Row) : Int :=
  pyInt (pdSum (tbl.map (fun r => r.activeUsers)))

/-- `int(df["New users"].sum())` (line 109). -/
def totalNew (tbl : List Row) : Int :=
  pyInt (pdSum (tbl.map (fun r => r.newUsers)))

/-- `int(df["Returning users"].sum())` (line 110). -/
def totalReturning (tbl : List Row) : Int :=
  pyInt (pdSum (tbl.map (fun r => r.returningUsers)))

/-- `float(df["Total revenue (num)"].sum())` (line 111). -/
def totalRevenue (tbl : List Row) : Rat :=
  pdSum (tbl.map (fun r => r.revenueNum))

/-- The sort key of a row with a missing value defaulted: only ever applied
to rows whose key is present. -/
def keyVal (key : Row → Option Rat) (r : Row) : Rat := (key r).getD 0

/-- Ascending comparison of two rows by a numeric sort key. -/
def keyLe (f : Row → Rat) (a b : Row) : Prop := f a ≤ f b

instance (f : Row → Rat) : DecidableRel (keyLe f) := fun a b =>
  inferInstanceAs (Decidable (f a ≤ f b))

instance (f : Row → Rat) : IsTotal Row (keyLe f) :=
  ⟨fun a b => le_total (f a) (f b)⟩

instance (f : Row → Rat) : IsTrans Row (keyLe f) :=
  ⟨fun _ _ _ hab hbc => le_trans hab hbc⟩

/-!
#### The `np.argsort` kernels

`df.sort_values(column, ...)` ends in `np.argsort(values, kind=kind)`.  The
order of tied entries is kernel-dependent: numpy only guarantees a sorted
permutation for every `kind`, and only `kind="stable"` / `"mergesort"` pin
the tie order down.  Both kernels that matter here are modelled: the stable
family (`stableSort`, an insertion sort — stable), and the *default*
`kind="quicksort"` (`npQuicksort`), transliterated below from numpy's
`aquicksort` / `aheapsort` routines (`numpy/core/src/npysort/quicksort.c.src`
and `heapsort.c.src`, argsort variants): an introsort whose partition scans
swap tied entries, so it is not stable once a range is longer than
`SMALL_QUICKSORT = 15`.  The `NaN` comparison clause of `DOUBLE_LT` is
dropped: pandas' `nargsort` removes missing values before the kernel runs.
-/

/-- `tosort[i]` with the out-of-range default never reached on real calls. -/
def lget (t : List Nat) (i : Nat) : Nat := t.getD i 0

/-- `tosort[i] = x`. -/
def lset (t : List Nat) (i : Nat) (x : Nat) : List Nat := t.set i x

/-- `INTP_SWAP(tosort[i], tosort[j])`. -/
def lswap (t : List Nat) (i j : Nat) : List Nat :=
  (t.set i (lget t j)).set j (lget t i)

/-- `v[tosort[i]]`. -/
def vAt (v : List Rat) (t : List Nat) (i : Nat) : Rat := v.getD (lget t i) 0

/-- `do ++pi; while (LT(v[*pi], vp));` — the fuel exceeds every reachable
scan length (the pivot copy at `pr - 1` is a sentinel). -/
def scanUp (v : List Rat) (t : List Nat) (vp : Rat) : Nat → Nat → Nat
  | 0, i => i + 1
  | fuel+1, i => if vAt v t (i+1) < vp then scanUp v t vp fuel (i+1) else i + 1

/-- `do --pj; while (LT(vp, v[*pj]));` — the median-of-3 entry at `pl` is a
sentinel. -/
def scanDown (v : List Rat) (t : List Nat) (vp : Rat) : Nat → Nat → Nat
  | 0, j => j - 1
  | fuel+1, j => if vp < vAt v t (j-1) then scanDown v t vp fuel (j-1) else j - 1

/-- The partition exchange loop: scan up, scan down, break once the scans
cross (`if (pi >= pj) break`), otherwise swap and continue. -/
def hoareLoop (v : List Rat) (vp : Rat) : Nat → List Nat → Nat → Nat → List Nat × Nat
  | 0, t, i, _ => (t, i)
  | fuel+1, t, i, j =>
    let i2 := scanUp v t vp (v.length + 2) i
    let j2 := scanDown v t vp (v.length + 2) j
    if j2 ≤ i2 then (t, i2)
    else hoareLoop v vp fuel (lswap t i2 j2) i2 j2

/-- One `aquicksort` partition of `tosort[pl..pr]`: median-of-3 pivot
selection (three conditional swaps), pivot parked at `pr - 1`, the exchange
loop, and the final swap of the crossing point with the parked pivot.
Returns the updated order and the pivot position `pi`. -/
def partitionStep (v : List Rat) (t : List Nat) (pl pr : Nat) : List Nat × Nat :=
  let pm := pl + (pr - pl) / 2
  let t1 := if vAt v t pm < vAt v t pl then lswap t pm pl else t
  let t2 := if vAt v t1 pr < vAt v t1 pm then lswap t1 pr pm else t1
  let t3 := if vAt v t2 pm < vAt v t2 pl then lswap t2 pm pl else t2
  let vp := vAt v t3 pm
  let t4 := lswap t3 pm (pr - 1)
  let res := hoareLoop v vp (pr + 2) t4 pl (pr - 1)
  (lswap res.1 res.2 (pr - 1), res.2)

/-- The shifting inner loop of the final insertion sort:
`while (pj > pl && LT(vp, v[*pk])) *pj-- = *pk--;`. -/
def insShift (v : List Rat) (vp : Rat) (pl : Nat) : Nat → List Nat → Nat → List Nat × Nat
  | 0, t, pj => (t, pj)
  | fuel+1, t, pj =>
    if pl < pj ∧ vp < vAt v t (pj - 1) then
      insShift v vp pl fuel (lset t pj (lget t (pj - 1))) (pj - 1)
    else (t, pj)

/-- The insertion sort `aquicksort` applies to ranges of at most
`SMALL_QUICKSORT + 1` entries (`for (pi = pl + 1; pi <= pr; ++pi) ...`). -/
def insLoop (v : List Rat) (pl pr : Nat) : Nat → List Nat → Nat → List Nat
  | 0, t, _ => t
  | fuel+1, t, pi =>
    if pi ≤ pr then
      let vi := lget t pi
      let vp := v.getD vi 0
      let res := insShift v vp pl (pi + 1) t pi
      insLoop v pl pr fuel (lset res.1 res.2 vi) (pi + 1)
    else t

/-- Insertion sort of `tosort[pl..pr]` by value. -/
def insertionRange (v : List Rat) (t : List Nat) (pl pr : Nat) : List Nat :=
  insLoop v pl pr (pr + 2 - pl) t (pl + 1)

/-- `a[i]` of `aheapsort`, whose `a = tosort - 1` is one-based into the
subrange starting at `pl`. -/
def haGet (t : List Nat) (pl i : Nat) : Nat := lget t (pl + i - 1)

/-- `a[i] = x` of `aheapsort`. -/
def haSet (t : List Nat) (pl i x : Nat) : List Nat := lset t (pl + i - 1) x

/-- The sift-down loop shared by both `aheapsort` phases
(`for (i = l, j = l*2; j <= n;) ...`). -/
def haSift (v : List Rat) (pl n tmp : Nat) : Nat → List Nat → Nat → Nat → List Nat × Nat
  | 0, t, i, _ => (t, i)
  | fuel+1, t, i, j =>
    if j ≤ n then
      let j2 := if j < n ∧ v.getD (haGet t pl j) 0 < v.getD (haGet t pl (j+1)) 0
        then j + 1 else j
      if v.getD tmp 0 < v.getD (haGet t pl j2) 0 then
        haSift v pl n tmp fuel (haSet t pl i (haGet t pl j2)) j2 (j2 + j2)
      else (t, i)
    else (t, i)

/-- The heapify phase of `aheapsort` (`for (l = n >> 1; l > 0; --l)`). -/
def haBuild (v : List Rat) (pl n : Nat) : Nat → List Nat → Nat → List Nat
  | 0, t, _ => t
  | fuel+1, t, l =>
    if 1 ≤ l then
      let tmp := haGet t pl l
      let res := haSift v pl n tmp (n + 2) t l (l + l)
      haBuild v pl n fuel (haSet res.1 pl res.2 tmp) (l - 1)
    else t

/-- The extraction phase of `aheapsort` (`for (; n > 1;)`). -/
def haPop (v : List Rat) (pl : Nat) : Nat → List Nat → Nat → List Nat
  | 0, t, _ => t
  | fuel+1, t, n =>
    if 1 < n then
      let tmp := haGet t pl n
      let t1 := haSet t pl n (haGet t pl 1)
      let n2 := n - 1
      let res := haSift v pl n2 tmp (n2 + 2) t1 1 2
      haPop v pl fuel (haSet res.1 pl res.2 tmp) n2
    else t

/-- numpy `aheapsort` on the subrange `tosort[pl..pr]` — the introsort
fallback `aquicksort` takes when its depth budget is exhausted. -/
def aheapsortRange (v : List Rat) (t : List Nat) (pl pr : Nat) : List Nat :=
  let n := pr + 1 - pl
  haPop v pl (n + 1) (haBuild v pl n (n + 1) t (n / 2)) n

/-- The body of `aquicksort`: while a range holds more than
`SMALL_QUICKSORT = 15` further entries it is partitioned (after the shared
depth budget check `if (depth_limit-- < 0)`, which falls back to heapsort),
recursing into the smaller side first and the pushed larger side after it,
exactly as the explicit stack in the C does; short ranges get the insertion
sort.  The fuel only bounds the recursion (every recursive call strictly
shrinks its range, so `2·n + 16` is never exhausted); the depth budget is
threaded through in the C's processing order. -/
def qsInner (v : List Rat) : Nat → List Nat → Nat → Nat → Int → List Nat × Int
  | 0, t, _, _, d => (t, d)
  | fuel+1, t, pl, pr, d =>
    if pr - pl > 15 then
      if d < 0 then (aheapsortRange v t pl pr, d - 1)
      else
        let pres := partitionStep v t pl pr
        if pres.2 - pl < pr - pres.2 then
          let res := qsInner v fuel pres.1 pl (pres.2 - 1) (d - 1)
          qsInner v fuel res.1 (pres.2 + 1) pr res.2
        else
          let res := qsInner v fuel pres.1 (pres.2 + 1) pr (d - 1)
          qsInner v fuel res.1 pl (pres.2 - 1) res.2
    else
      (insertionRange v t pl pr, d)

/-- `np.argsort(v, kind="quicksort")`: numpy's `aquicksort`, starting from
the identity order with depth budget `npy_get_msb(num) * 2`. -/
def aquicksortIdx (v : List Rat) : List Nat :=
  if v.length = 0 then []
  else
    (qsInner v (2 * v.length + 16) (List.range v.length)
      0 (v.length - 1) (2 * (Nat.log2 v.length : Int))).1

/-- The default sort kernel of `sort_values` (`kind="quicksort"`): argsort
the key values with `aquicksortIdx` and reindex the rows. -/
def npQuicksort (f : Row → Rat) (l : List Row) : List Row :=
  (aquicksortIdx (l.map f)).filterMap (fun i => l[i]?)

/-- The stable sort kernels (`kind="stable"` / `"mergesort"`), modelled by
the (stable) insertion sort. -/
def stableSort (f : Row → Rat) (l : List Row) : List Row :=
  List.insertionSort (keyLe f) l

/-- `df.sort_values(column, ascending=False)` as pandas implements it
(`nargsort`), generic in the argsort kernel `sortk`: rows with a present key
are reversed, kernel-argsorted ascending, and reversed again; rows with a
missing key go to the end (`na_position="last"`). -/
def sortValuesDescWith (sortk : (Row → Rat) → List Row → List Row)
    (key : Row → Option Rat) (tbl : List Row) : List Row :=
  let nonNan := tbl.filter (fun r => (key r).isSome)
  let nans := tbl.filter (fun r => !(key r).isSome)
  (sortk (keyVal key) nonNan.reverse).reverse ++ nans

/-- `df.sort_values(column, ascending=False).head(n)` (lines 125 and 211),
generic in the argsort kernel. -/
def topByWith (sortk : (Row → Rat) → List Row → List Row)
    (key : Row → Option Rat) (n : Nat) (tbl : List Row) : List Row :=
  (sortValuesDescWith sortk key tbl).take n

/-- The sort of lines 125 and 211 under a stable `kind`. -/
def sortValuesDescStable (key : Row → Option Rat) (tbl : List Row) : List Row :=
  sortValuesDescWith stableSort key tbl

/-- `top_by` under a stable `kind`. -/
def topByStable (key : Row → Option Rat) (n : Nat) (tbl : List Row) : List Row :=
  topByWith stableSort key n tbl

/-- The sort of lines 125 and 211 under the default `kind="quicksort"`. -/
def sortValuesDescQuick (key : Row → Option Rat) (tbl : List Row) : List Row :=
  sortValuesDescWith npQuicksort key tbl

/-- `top_by` under the default `kind="quicksort"`. -/
def topByQuick (key : Row → Option Rat) (n : Nat) (tbl : List Row) : List Row :=
  topByWith npQuicksort key n tbl

/-- Descending order on sort-column values, missing values at the end. -/
def descKeyRel (x y : Option Rat) : Prop :=
  y = none ∨ ∃ a b, x = some a ∧ y = some b ∧ b ≤ a

/-- A row whose sort key ties with every other such row, used to exhibit the
tie behavior of the default kernel. -/
def tiedRow (name : String) : Row :=
  { country := name, activeUsers := some 1, newUsers := none, returningUsers := none,
    engagedSessions := none, avgEngagementTime := none, bounceRate := none,
    addToCarts := none, checkouts := none, purchases := none, itemsPurchased := none,
    revenueNum := none, aov := none, revPerActiveUser := none, atcRate := none,
    checkoutRate := none, purchaseRate := none, unitsPerOrder := none }

/-- Seventeen rows tied on `activeUsers`: the smallest table on which the
default kernel leaves its (stable) insertion-sort regime
(`(pr - pl) > SMALL_QUICKSORT`). -/
def tiedTbl : List Row :=
  ["a", "b", "c", "d", "e", "f", "g", "h", "i", "j", "k", "l", "m", "n",
    "o", "p", "q"].map tiedRow

/-! ### Pointwise characterization of `loadData`

`loadData` works column by column; when it succeeds every cell of the result
is a function of its own raw row, which the following definitions and lemmas
make explicit. -/

/-- One transformed row from its raw cells (the cons case of
`assembleRows`). -/
def buildRow (r : RawRow) (rv a c k p it : Option Rat) : Row :=
  { country := r.country
    activeUsers := a
    newUsers := toNumericCell r.newUsers
    returningUsers := toNumericCell r.returningUsers
    engagedSessions := toNumericCell r.engagedSessions
    avgEngagementTime := toNumericCell r.avgEngagementTime
    bounceRate := toNumericCell r.bounceRate
    addToCarts := c
    checkouts := k
    purchases := p
    itemsPurchased := it
    revenueNum := rv
    aov := aovOf rv p
    revPerActiveUser := ratioPos rv a
    atcRate := ratioPos c a
    checkoutRate := ratioPos k c
    purchaseRate := ratioPos p k
    unitsPerOrder := ratioPos it p }

/-- The clean numeric revenue cell of one raw row, as a function of the
header of the revenue column. -/
def revCell (revHeader : Option String) (r : RawRow) : Option Rat :=
  if revHeader = some "Total revenue" then toNumericCell (stripCurrency r.revenueRaw)
  else some 0

/-- The transformed row `load_data` produces for one raw row when the load
succeeds. -/
def mkLoadedRow (revHeader : Option String) (r : RawRow) : Row :=
  buildRow r (revCell revHeader r)
    (toNumericCell r.activeUsers) (toNumericCell r.addToCarts)
    (toNumericCell r.checkouts) (toNumericCell r.purchases)
    (toNumericCell r.itemsPurchased)

/-- Whether an `Except`-valued cell computation succeeded. -/
def exceptOk (e : Except String (Option Rat)) : Bool :=
  match e with
  | .ok _ => true
  | .error _ => false

/-! ### Concrete sample data used by witnesses and counterexamples -/

/-- A well-formed raw row with small values (kept small so that concrete
evaluation stays cheap). -/
def sampleRaw : RawRow :=
  { country := "US", activeUsers := "4", newUsers := "2", returningUsers := "2",
    engagedSessions := "3", avgEngagementTime := "1.5", bounceRate := "0.5",
    addToCarts := "3", checkouts := "2", purchases := "2", itemsPurchased := "4",
    revenueRaw := "$8" }

/-- The CSV used to instantiate claim C1. -/
def c1csv : RawCSV := { revenueHeader := some "Total revenue", rows := [sampleRaw] }

/-- The table `loadData` produces for `c1csv`. -/
def c1tbl : List Row := c1csv.rows.map (mkLoadedRow c1csv.revenueHeader)

/-- The CSV refuting claim C2: one cell of the revenue column strips to
`"1.2.3"`, which is not a float literal. -/
def c2csv : RawCSV :=
  { revenueHeader := some "Total revenue",
    rows := [{ sampleRaw with revenueRaw := "1.2.3" }] }

/-- The CSV used to instantiate the amended claim C2: its bounce-rate cell
is malformed and simply becomes missing. -/
def c2okcsv : RawCSV :=
  { revenueHeader := some "Total revenue",
    rows := [{ sampleRaw with bounceRate := "oops" }] }

/-- The CSV used to instantiate claim C3: its only row has zero
purchases. -/
def c3csv : RawCSV :=
  { revenueHeader := some "Total revenue",
    rows := [{ sampleRaw with purchases := "0" }] }

/-- The row `loadData` produces for `c3csv`. -/
def c3row : Row := mkLoadedRow c3csv.revenueHeader (c3csv.rows.get ⟨0, by decide⟩)

/-- The CSV used to instantiate claim C8: no revenue column at all. -/
def c8csv : RawCSV := { revenueHeader := none, rows := [sampleRaw] }

/-- The CSV refuting claim C9: the revenue column is present but its header
carries a trailing space, and its cell holds the currency text `"$5.00"`. -/
def c9csv : RawCSV :=
  { revenueHeader := some "Total revenue ",
    rows := [{ sampleRaw with revenueRaw := "$5.00" }] }

/-- A loaded row with a fractional active-users value (`"1.5"` parses to
`3/2`). -/
def fracRow : Row :=
  mkLoadedRow (some "Total revenue") { sampleRaw with activeUsers := "1.5" }

/-- The loaded form of `sampleRaw`, used as an integer-valued row. -/
def intRow : Row := mkLoadedRow (some "Total revenue") sampleRaw

/-- The block of rows with a present sort key produced by the kernel
`sortk` inside `sortValuesDescWith` (the part before the missing-key
rows). -/
def descBlockWith (sortk : (Row → Rat) → List Row → List Row)
    (key : Row → Option Rat) (tbl : List Row) : List Row :=
  (sortk (keyVal key) ((tbl.filter (fun r => (key r).isSome)).reverse)).reverse

theorem astypeFloatCell_ok {s : String} {v : Option Rat}
    (h : astypeFloatCell s = .ok v) : v = toNumericCell s := by
  unfold astypeFloatCell at h
  unfold toNumericCell
  by_cases hs : s = ""
  · simp [hs] at h ⊢
    exact h.symm
  · simp only [if_neg hs] at h ⊢
    cases hp : parseFloat s with
    | none => rw [hp] at h; exact absurd h (by simp)
    | some w => rw [hp] at h; exact (Except.ok.inj h).symm

theorem astypeFloatCell_of_ok {s : String}
    (h : exceptOk (astypeFloatCell s) = true) :
    astypeFloatCell s = .ok (toNumericCell s) := by
  cases he : astypeFloatCell s with
  | ok v => rw [astypeFloatCell_ok he]
  | error e => rw [he] at h; simp [exceptOk] at h

theorem readCell_some {s : String} {v : Option Rat}
    (h : readCell s = some v) : v = toNumericCell s := by
  unfold readCell at h
  unfold toNumericCell
  by_cases hs : s = ""
  · simp [hs] at h ⊢
    exact h.symm
  · simp only [if_neg hs] at h ⊢
    cases hp : parseFloat s with
    | none => rw [hp] at h; exact absurd h (by simp)
    | some w => rw [hp] at h; simp at h; exact h.symm

theorem readCell_of_isSome {s : String} (h : (readCell s).isSome = true) :
    readCell s = some (toNumericCell s) := by
  cases he : readCell s with
  | none => rw [he] at h; simp at h
  | some v => rw [readCell_some he]

theorem exceptCol_ok_of {α β : Type} {f : α → Except String β} {g : α → β}
    {l : List α} (h : ∀ a ∈ l, f a = .ok (g a)) :
    exceptCol f l = .ok (l.map g) := by
  induction l with
  | nil => rfl
  | cons a l ih =>
    have ha := h a (List.mem_cons_self a l)
    have hl := ih (fun b hb => h b (List.mem_cons_of_mem a hb))
    rw [exceptCol, ha, hl, List.map_cons]

theorem exceptCol_ok_inv {α β : Type} {f : α → Except String β} {g : α → β}
    {l : List α} {bs : List β} (h : exceptCol f l = .ok bs)
    (hg : ∀ a b, a ∈ l → f a = .ok b → b = g a) : bs = l.map g := by
  induction l generalizing bs with
  | nil =>
    rw [exceptCol] at h
    rw [List.map_nil, (Except.ok.inj h).symm]
  | cons a l ih =>
    rw [exceptCol] at h
    cases ha : f a with
    | error e => rw [ha] at h; exact absurd h (by simp)
    | ok b =>
      rw [ha] at h
      cases hl : exceptCol f l with
      | error e => rw [hl] at h; exact absurd h (by simp)
      | ok cs =>
        rw [hl] at h
        have hb : b = g a := hg a b (List.mem_cons_self a l) ha
        have hcs : cs = l.map g :=
          ih hl (fun x y hx hy => hg x y (List.mem_cons_of_mem a hx) hy)
        rw [List.map_cons, ← hb, ← hcs, (Except.ok.inj h).symm]

theorem optionCol_some_of {α β : Type} {f : α → Option β} {g : α → β}
    {l : List α} (h : ∀ a ∈ l, f a = some (g a)) :
    optionCol f l = some (l.map g) := by
  induction l with
  | nil => rfl
  | cons a l ih =>
    have ha := h a (List.mem_cons_self a l)
    have hl := ih (fun b hb => h b (List.mem_cons_of_mem a hb))
    rw [optionCol, ha, hl, List.map_cons]

theorem optionCol_some_inv {α β : Type} {f : α → Option β} {g : α → β}
    {l : List α} {bs : List β} (h : optionCol f l = some bs)
    (hg : ∀ a b, a ∈ l → f a = some b → b = g a) : bs = l.map g := by
  induction l generalizing bs with
  | nil =>
    rw [optionCol] at h
    rw [List.map_nil, (Option.some.inj h).symm]
  | cons a l ih =>
    rw [optionCol] at h
    cases ha : f a with
    | none => rw [ha] at h; exact absurd h (by simp)
    | some b =>
      rw [ha] at h
      cases hl : optionCol f l with
      | none => rw [hl] at h; exact absurd h (by simp)
      | some cs =>
        rw [hl] at h
        have hb : b = g a := hg a b (List.mem_cons_self a l) ha
        have hcs : cs = l.map g :=
          ih hl (fun x y hx hy => hg x y (List.mem_cons_of_mem a hx) hy)
        rw [List.map_cons, ← hb, ← hcs, (Option.some.inj h).symm]

theorem assembleRows_map (rs : List RawRow)
    (f1 f2 f3 f4 f5 f6 : RawRow → Option Rat) :
    assembleRows rs (rs.map f1) (rs.map f2) (rs.map f3) (rs.map f4)
      (rs.map f5) (rs.map f6) =
      rs.map (fun r => buildRow r (f1 r) (f2 r) (f3 r) (f4 r) (f5 r) (f6 r)) := by
  induction rs with
  | nil => rfl
  | cons r rs ih => simp only [List.map_cons, assembleRows, buildRow, ih]

theorem numericColumn_ok_of {cells : List String}
    (h : ∀ s ∈ cells, (readCell s).isSome = true) :
    numericColumn cells = .ok (cells.map toNumericCell) := by
  rw [numericColumn, optionCol_some_of (fun s hs => readCell_of_isSome (h s hs))]

theorem numericColumn_ok_inv {cells : List String} {vals : List (Option Rat)}
    (h : numericColumn cells = .ok vals) : vals = cells.map toNumericCell := by
  rw [numericColumn] at h
  cases hoc : optionCol readCell cells with
  | none => rw [hoc] at h; exact absurd h (by simp)
  | some ws =>
    rw [hoc] at h
    rw [(Except.ok.inj h).symm]
    exact optionCol_some_inv hoc (fun a b _ hb => readCell_some hb)

/-- When every cell that `load_data` treats strictly is well formed, the load
succeeds and produces exactly the pointwise-transformed rows. -/
theorem loadData_ok_of (csv : RawCSV)
    (hrev : csv.revenueHeader = some "Total revenue" →
      ∀ r ∈ csv.rows, exceptOk (astypeFloatCell (stripCurrency r.revenueRaw)) = true)
    (hcols : ∀ r ∈ csv.rows,
      (readCell r.activeUsers).isSome = true ∧ (readCell r.addToCarts).isSome = true ∧
        (readCell r.checkouts).isSome = true ∧ (readCell r.purchases).isSome = true ∧
        (readCell r.itemsPurchased).isSome = true) :
    loadData csv = .ok (csv.rows.map (mkLoadedRow csv.revenueHeader)) := by
  have hrevcol : (if csv.revenueHeader = some "Total revenue" then
        exceptCol (fun r => astypeFloatCell (stripCurrency r.revenueRaw)) csv.rows
      else .ok (csv.rows.map (fun _ => some (0 : Rat)))) =
      .ok (csv.rows.map (revCell csv.revenueHeader)) := by
    by_cases hh : csv.revenueHeader = some "Total revenue"
    · rw [if_pos hh]
      refine exceptCol_ok_of (fun r hr => ?_)
      rw [revCell, if_pos hh]
      exact astypeFloatCell_of_ok (hrev hh r hr)
    · rw [if_neg hh]
      congr 1
      refine List.map_congr_left (fun r _ => ?_)
      rw [revCell, if_neg hh]
  have hcol : ∀ f : RawRow → String, (∀ r ∈ csv.rows, (readCell (f r)).isSome = true) →
      numericColumn (csv.rows.map f) = .ok (csv.rows.map (fun r => toNumericCell (f r))) := by
    intro f hf
    rw [numericColumn_ok_of, List.map_map]
    · rfl
    · intro s hs
      obtain ⟨r, hr, hrs⟩ := List.mem_map.1 hs
      rw [← hrs]
      exact hf r hr
  have hpur := hcol (fun r => r.purchases) (fun r hr => ((hcols r hr).2.2.2.1))
  have hact := hcol (fun r => r.activeUsers) (fun r hr => ((hcols r hr).1))
  have hatc := hcol (fun r => r.addToCarts) (fun r hr => ((hcols r hr).2.1))
  have hchk := hcol (fun r => r.checkouts) (fun r hr => ((hcols r hr).2.2.1))
  have hitems := hcol (fun r => r.itemsPurchased) (fun r hr => ((hcols r hr).2.2.2.2))
  simp only [loadData, hrevcol, hpur, hact, hatc, hchk, hitems]
  rw [assembleRows_map]
  rfl

/-- Whenever `load_data` succeeds, the table it returns is exactly the
pointwise-transformed rows. -/
theorem loadData_ok_inv {csv : RawCSV} {tbl : List Row}
    (h : loadData csv = .ok tbl) :
    tbl = csv.rows.map (mkLoadedRow csv.revenueHeader) := by
  simp only [loadData] at h
  split at h
  case h_1 => exact absurd h (by simp)
  case h_2 rev hrc =>
    split at h
    case h_1 => exact absurd h (by simp)
    case h_2 purch hpur =>
      split at h
      case h_1 => exact absurd h (by simp)
      case h_2 act hact =>
        split at h
        case h_1 => exact absurd h (by simp)
        case h_2 atc hatc =>
          split at h
          case h_1 => exact absurd h (by simp)
          case h_2 chk hchk =>
            split at h
            case h_1 => exact absurd h (by simp)
            case h_2 items hitems =>
              have hrevv : rev = csv.rows.map (revCell csv.revenueHeader) := by
                by_cases hh : csv.revenueHeader = some "Total revenue"
                · rw [if_pos hh] at hrc
                  have h1 : rev =
                      csv.rows.map (fun r => toNumericCell (stripCurrency r.revenueRaw)) :=
                    exceptCol_ok_inv hrc (fun a b _ hb => astypeFloatCell_ok hb)
                  rw [h1]
                  exact List.map_congr_left (fun r _ => by rw [revCell, if_pos hh])
                · rw [if_neg hh] at hrc
                  have h1 : rev = csv.rows.map (fun _ => some (0 : Rat)) :=
                    (Except.ok.inj hrc).symm
                  rw [h1]
                  exact List.map_congr_left (fun r _ => by rw [revCell, if_neg hh])
              have hpurv := numericColumn_ok_inv hpur
              have hactv := numericColumn_ok_inv hact
              have hatcv := numericColumn_ok_inv hatc
              have hchkv := numericColumn_ok_inv hchk
              have hitemsv := numericColumn_ok_inv hitems
              rw [List.map_map] at hpurv hactv hatcv hchkv hitemsv
              rw [(Except.ok.inj h).symm, hrevv, hpurv, hactv, hatcv, hchkv,
                hitemsv, assembleRows_map]
              rfl

/-! ### Claim C1 -/

/-- Claim C1: for every row of a loaded table (revenue column present), the
derived revenue equals the raw revenue text with every character other than
a digit, `.` or `-` removed, parsed as a float, with an empty remainder
giving missing; and the currency string `"$1,234.56"` parses to `1234.56`. -/
theorem claim1_revenue_cleaning (csv : RawCSV) (tbl : List Row)
    (hdr : csv.revenueHeader = some "Total revenue")
    (hload : loadData csv = .ok tbl) :
    tbl.map (fun r => r.revenueNum) =
      csv.rows.map (fun r =>
        let s := stripCurrency r.revenueRaw
        if s = "" then none else parseFloat s) ∧
    stripCurrency "$1,234.56" = "1234.56" ∧
    parseFloat "1234.56" = some (1234.56 : Rat) := by
  refine ⟨?_, by decide, ?_⟩
  · rw [loadData_ok_inv hload, List.map_map]
    refine List.map_congr_left (fun r _ => ?_)
    show revCell csv.revenueHeader r = _
    rw [revCell, if_pos hdr]
    rfl
  · rw [show parseFloat "1234.56" = some (mkRat 123456 100) from rfl,
      Rat.mkRat_eq_div]
    norm_num

theorem claim1_witness :
    c1tbl.map (fun r => r.revenueNum) =
      c1csv.rows.map (fun r =>
        let s := stripCurrency r.revenueRaw
        if s = "" then none else parseFloat s) ∧
    stripCurrency "$1,234.56" = "1234.56" ∧
    parseFloat "1234.56" = some (1234.56 : Rat) :=
  claim1_revenue_cleaning c1csv c1tbl rfl
    (by with_unfolding_all decide)

/-! ### Claim C2 -/

/-- Claim C2 is false as stated: a single revenue cell whose stripped
remainder is `"1.2.3"` makes `load_data` raise (`astype(float)` raises
`ValueError`), aborting the whole load instead of recording the cell as
missing. -/
theorem claim2_counterexample : loadData c2csv = .error "ValueError" := by
  with_unfolding_all decide

/-- Claim C2 as amended: malformed cells only degrade to missing in the
columns that merely pass through the final `pd.to_numeric(..., coerce)`
(new/returning users, engaged sessions, engagement time, bounce rate) — the
load succeeds with no condition at all on those cells and each of them
coerces cell-wise, unparsable text becoming missing.  A revenue cell whose
stripped remainder is neither empty nor a float literal, or a malformed cell
in one of the five ratio-operand columns, aborts the load instead. -/
theorem claim2_amended_tolerance (csv : RawCSV)
    (hrev : csv.revenueHeader = some "Total revenue" →
      ∀ r ∈ csv.rows, exceptOk (astypeFloatCell (stripCurrency r.revenueRaw)) = true)
    (hcols : ∀ r ∈ csv.rows,
      (readCell r.activeUsers).isSome = true ∧ (readCell r.addToCarts).isSome = true ∧
        (readCell r.checkouts).isSome = true ∧ (readCell r.purchases).isSome = true ∧
        (readCell r.itemsPurchased).isSome = true) :
    loadData csv = .ok (csv.rows.map (mkLoadedRow csv.revenueHeader)) ∧
    (∀ s, parseFloat s = none → s ≠ "" → toNumericCell s = none) ∧
    (∀ r ∈ csv.rows,
      (mkLoadedRow csv.revenueHeader r).newUsers = toNumericCell r.newUsers ∧
      (mkLoadedRow csv.revenueHeader r).returningUsers = toNumericCell r.returningUsers ∧
      (mkLoadedRow csv.revenueHeader r).engagedSessions = toNumericCell r.engagedSessions ∧
      (mkLoadedRow csv.revenueHeader r).avgEngagementTime = toNumericCell r.avgEngagementTime ∧
      (mkLoadedRow csv.revenueHeader r).bounceRate = toNumericCell r.bounceRate) := by
  refine ⟨loadData_ok_of csv hrev hcols, ?_, ?_⟩
  · intro s hp hs
    rw [toNumericCell, if_neg hs, hp]
  · intro r _
    exact ⟨rfl, rfl, rfl, rfl, rfl⟩

theorem claim2_witness :
    loadData c2okcsv = .ok (c2okcsv.rows.map (mkLoadedRow c2okcsv.revenueHeader)) ∧
    toNumericCell "oops" = none :=
  ⟨(claim2_amended_tolerance c2okcsv (by decide) (by decide)).1,
   (claim2_amended_tolerance c2okcsv (by decide) (by decide)).2.1 "oops"
     (by decide) (by decide)⟩

/-! ### Claim C3 -/

/-- Claim C3: in every loaded row each of the six derived ratios is a
function of its own numerator and denominator cells alone (so a bad
denominator in one ratio cannot affect another), a zero or missing
denominator always yields missing — never an error and never infinity — and
in particular zero purchases make the average order value missing. -/
theorem claim3_guarded_division (csv : RawCSV) (tbl : List Row) (r : Row)
    (hload : loadData csv = .ok tbl) (hr : r ∈ tbl) :
    (r.aov = aovOf r.revenueNum r.purchases ∧
      r.revPerActiveUser = ratioPos r.revenueNum r.activeUsers ∧
      r.atcRate = ratioPos r.addToCarts r.activeUsers ∧
      r.checkoutRate = ratioPos r.checkouts r.addToCarts ∧
      r.purchaseRate = ratioPos r.purchases r.checkouts ∧
      r.unitsPerOrder = ratioPos r.itemsPurchased r.purchases) ∧
    (∀ num den, den = some 0 ∨ den = none → aovOf num den = none) ∧
    (∀ num den, den = some 0 ∨ den = none → ratioPos num den = none) ∧
    (r.purchases = some 0 → r.aov = none) := by
  rw [loadData_ok_inv hload] at hr
  obtain ⟨raw, hraw, hr⟩ := List.mem_map.1 hr
  have haov : ∀ num den, den = some 0 ∨ den = none → aovOf num den = none := by
    intro num den hden
    rcases hden with h | h <;> rw [h] <;> simp [aovOf]
  have hpos : ∀ num den, den = some 0 ∨ den = none → ratioPos num den = none := by
    intro num den hden
    rcases hden with h | h <;> rw [h] <;> norm_num [ratioPos]
  subst hr
  refine ⟨⟨rfl, rfl, rfl, rfl, rfl, rfl⟩, haov, hpos, ?_⟩
  intro hp
  show aovOf _ (toNumericCell raw.purchases) = none
  have : toNumericCell raw.purchases =
      (mkLoadedRow csv.revenueHeader raw).purchases := rfl
  rw [this, hp]
  exact haov _ _ (Or.inl rfl)

theorem claim3_witness :
    (c3row.aov = aovOf c3row.revenueNum c3row.purchases ∧
      c3row.revPerActiveUser = ratioPos c3row.revenueNum c3row.activeUsers ∧
      c3row.atcRate = ratioPos c3row.addToCarts c3row.activeUsers ∧
      c3row.checkoutRate = ratioPos c3row.checkouts c3row.addToCarts ∧
      c3row.purchaseRate = ratioPos c3row.purchases c3row.checkouts ∧
      c3row.unitsPerOrder = ratioPos c3row.itemsPurchased c3row.purchases) ∧
    aovOf (some 1) (some 0) = none ∧
    ratioPos (some 1) none = none ∧
    c3row.aov = none :=
  ⟨(claim3_guarded_division c3csv (c3csv.rows.map (mkLoadedRow c3csv.revenueHeader))
      c3row (by with_unfolding_all decide) (by with_unfolding_all decide)).1,
   (claim3_guarded_division c3csv (c3csv.rows.map (mkLoadedRow c3csv.revenueHeader))
      c3row (by with_unfolding_all decide) (by with_unfolding_all decide)).2.1
     (some 1) (some 0) (Or.inl rfl),
   (claim3_guarded_division c3csv (c3csv.rows.map (mkLoadedRow c3csv.revenueHeader))
      c3row (by with_unfolding_all decide) (by with_unfolding_all decide)).2.2.1
     (some 1) none (Or.inr rfl),
   (claim3_guarded_division c3csv (c3csv.rows.map (mkLoadedRow c3csv.revenueHeader))
      c3row (by with_unfolding_all decide) (by with_unfolding_all decide)).2.2.2
     (by with_unfolding_all decide)⟩

/-! ### Claim C8 -/

/-- Claim C8: when the uploaded table has no `"Total revenue"` column (and
the rest of the load is well formed), the load still succeeds and the
derived numeric revenue is `0` for every row. -/
theorem claim8_missing_revenue_column (csv : RawCSV)
    (hnone : csv.revenueHeader = none)
    (hcols : ∀ r ∈ csv.rows,
      (readCell r.activeUsers).isSome = true ∧ (readCell r.addToCarts).isSome = true ∧
        (readCell r.checkouts).isSome = true ∧ (readCell r.purchases).isSome = true ∧
        (readCell r.itemsPurchased).isSome = true) :
    loadData csv = .ok (csv.rows.map (mkLoadedRow csv.revenueHeader)) ∧
    ∀ row ∈ csv.rows.map (mkLoadedRow csv.revenueHeader), row.revenueNum = some 0 := by
  refine ⟨loadData_ok_of csv (fun hh => ?_) hcols, ?_⟩
  · rw [hnone] at hh
    exact absurd hh (by simp)
  · intro row hrow
    obtain ⟨raw, hraw, hrw⟩ := List.mem_map.1 hrow
    rw [← hrw]
    show revCell csv.revenueHeader raw = some 0
    rw [revCell, hnone, if_neg (by simp)]

theorem claim8_witness :
    loadData c8csv = .ok (c8csv.rows.map (mkLoadedRow c8csv.revenueHeader)) ∧
    (mkLoadedRow c8csv.revenueHeader sampleRaw).revenueNum = some 0 :=
  ⟨(claim8_missing_revenue_column c8csv rfl (by decide)).1,
   (claim8_missing_revenue_column c8csv rfl (by decide)).2
     (mkLoadedRow c8csv.revenueHeader sampleRaw)
     (by with_unfolding_all decide)⟩

/-! ### Claim C9 -/

/-- Claim C9 is false as stated: the script checks `"Total revenue" in
df.columns` *before* it strips column names, so a header `"Total revenue "`
is treated as absent and the derived revenue defaults to `0` — not to the
cleaned value `5` that the claimed trim-then-clean order would produce. -/
theorem claim9_counterexample :
    (loadData c9csv).map (fun tbl => tbl.map (fun r => r.revenueNum)) =
      .ok [some 0] ∧
    toNumericCell (stripCurrency "$5.00") = some 5 ∧
    some (0 : Rat) ≠ some (5 : Rat) := by
  refine ⟨by with_unfolding_all decide, by with_unfolding_all decide, by decide⟩

/-- Claim C9 as amended: the revenue-column check happens on the *untrimmed*
header names, so any revenue header that is not exactly `"Total revenue"`
(for example one with surrounding whitespace) is treated as an absent
column and the derived revenue is `0` for every row, never the cleaned cell
values. -/
theorem claim9_header_check_order (csv : RawCSV) (tbl : List Row) (h : String)
    (hdr : csv.revenueHeader = some h) (hne : h ≠ "Total revenue")
    (hload : loadData csv = .ok tbl) :
    tbl.map (fun r => r.revenueNum) = csv.rows.map (fun _ => some 0) := by
  rw [loadData_ok_inv hload, List.map_map]
  refine List.map_congr_left (fun r _ => ?_)
  show revCell csv.revenueHeader r = some 0
  rw [revCell, hdr]
  have : (some h = some "Total revenue") = False := by
    simp only [Option.some.injEq, eq_iff_iff, iff_false]
    exact hne
  rw [if_neg (by rw [this]; exact id)]

theorem claim9_witness :
    (c9csv.rows.map (mkLoadedRow c9csv.revenueHeader)).map (fun r => r.revenueNum) =
      c9csv.rows.map (fun _ => some 0) :=
  claim9_header_check_order c9csv (c9csv.rows.map (mkLoadedRow c9csv.revenueHeader))
    "Total revenue " rfl (by decide) (by with_unfolding_all decide)

/-! ### Sums: helper lemmas -/

theorem pdSum_eq_sum (l : List (Option Rat)) :
    pdSum l = (l.map (fun v => v.getD 0)).sum := by
  have key : ∀ (l : List (Option Rat)) (a : Rat),
      l.foldl (fun a v => a + v.getD 0) a = a + (l.map (fun v => v.getD 0)).sum := by
    intro l
    induction l with
    | nil => intro a; simp
    | cons v l ih =>
      intro a
      rw [List.foldl_cons, ih, List.map_cons, List.sum_cons, add_assoc]
  rw [pdSum, key, zero_add]

theorem pdSum_cons (x : Option Rat) (l : List (Option Rat)) :
    pdSum (x :: l) = x.getD 0 + pdSum l := by
  rw [pdSum_eq_sum, pdSum_eq_sum, List.map_cons, List.sum_cons]

/-- The sum of a column over a table equals the sum over the parts of any
partition of its rows. -/
theorem pdSum_parts (g : Row → Option Rat) (tbl : List Row)
    (parts : List (List Row)) (hperm : tbl.Perm parts.join) :
    pdSum (tbl.map g) = (parts.map (fun p => pdSum (p.map g))).sum := by
  have e1 : ∀ q : List Row, pdSum (q.map g) = (q.map (fun r => (g r).getD 0)).sum := by
    intro q
    rw [pdSum_eq_sum, List.map_map]
    rfl
  rw [e1, (hperm.map _).sum_eq, List.map_join, List.sum_join, List.map_map]
  refine congrArg List.sum (List.map_congr_left (fun p _ => ?_))
  exact (e1 p).symm

/-- A summed column whose present cells are all integers sums to an
integer. -/
theorem pdSum_int (g : Row → Option Rat) (p : List Row)
    (hint : ∀ r ∈ p, ((g r).getD 0).den = 1) :
    ∃ k : Int, pdSum (p.map g) = (k : Rat) := by
  induction p with
  | nil => exact ⟨0, by simp [pdSum]⟩
  | cons r p ih =>
    obtain ⟨k, hk⟩ := ih (fun s hs => hint s (List.mem_cons_of_mem r hs))
    have hr := hint r (List.mem_cons_self r p)
    have hnum : (((g r).getD 0).num : Rat) = (g r).getD 0 := by
      have h2 := Rat.num_div_den ((g r).getD 0)
      rw [hr] at h2
      simpa using h2
    refine ⟨((g r).getD 0).num + k, ?_⟩
    rw [List.map_cons, pdSum_cons, hk]
    push_cast
    rw [hnum]

theorem pyInt_intCast (k : Int) : pyInt ((k : Int) : Rat) = k := by
  rw [pyInt, Rat.num_intCast, Rat.den_intCast]
  simp

/-! ### Claim C5 -/

/-- Claim C5 is false as stated: additivity fails under the `int(...)`
truncation applied to the user totals.  With two rows whose active-users
value is `1.5`, the whole-table total is `int(3.0) = 3`, but the two
singleton parts give `int(1.5) + int(1.5) = 1 + 1 = 2`. -/
theorem claim5_counterexample :
    ([fracRow, fracRow] : List Row).Perm [[fracRow], [fracRow]].join ∧
    totalActive [fracRow, fracRow] ≠
      ([[fracRow], [fracRow]].map totalActive).sum := by
  constructor
  · exact List.Perm.refl _
  · with_unfolding_all decide

/-- Claim C5 as amended: `aggregate_totals` is additive over every partition
of the rows for the revenue total (a plain float sum), and for the three
`int(...)`-converted user totals it is additive provided every present value
of the summed column is a whole number — the integer truncation breaks
additivity for fractional values (see the counterexample). -/
theorem claim5_additivity (tbl : List Row) (parts : List (List Row))
    (hperm : tbl.Perm parts.join) :
    totalRevenue tbl = (parts.map totalRevenue).sum ∧
    ((∀ r ∈ tbl, ((r.activeUsers).getD 0).den = 1) →
      totalActive tbl = (parts.map totalActive).sum) ∧
    ((∀ r ∈ tbl, ((r.newUsers).getD 0).den = 1) →
      totalNew tbl = (parts.map totalNew).sum) ∧
    ((∀ r ∈ tbl, ((r.returningUsers).getD 0).den = 1) →
      totalReturning tbl = (parts.map totalReturning).sum) := by
  have hmem : ∀ p ∈ parts, ∀ r ∈ p, r ∈ tbl := by
    intro p hp r hr
    exact hperm.mem_iff.2 (List.mem_join.2 ⟨p, hp, hr⟩)
  have hint : ∀ (g : Row → Option Rat), (∀ r ∈ tbl, ((g r).getD 0).den = 1) →
      pyInt (pdSum (tbl.map g)) = (parts.map (fun p => pyInt (pdSum (p.map g)))).sum := by
    intro g hg
    have key : ∀ ps : List (List Row), (∀ p ∈ ps, ∀ r ∈ p, r ∈ tbl) →
        ∃ K : Int, ((ps.map (fun p => pdSum (p.map g))).sum = (K : Rat) ∧
          (ps.map (fun p => pyInt (pdSum (p.map g)))).sum = K) := by
      intro ps
      induction ps with
      | nil => exact fun _ => ⟨0, by simp, by simp⟩
      | cons p ps ih =>
        intro hps
        obtain ⟨K, hK1, hK2⟩ := ih (fun q hq r hr => hps q (List.mem_cons_of_mem p hq) r hr)
        obtain ⟨k, hk⟩ := pdSum_int g p
          (fun r hr => hg r (hps p (List.mem_cons_self p ps) r hr))
        refine ⟨k + K, ?_, ?_⟩
        · rw [List.map_cons, List.sum_cons, hk, hK1]
          push_cast
          ring
        · rw [List.map_cons, List.sum_cons, hk, hK2, pyInt_intCast]

    obtain ⟨K, hK1, hK2⟩ := key parts hmem
    rw [pdSum_parts g tbl parts hperm, hK1, pyInt_intCast, hK2]
  refine ⟨?_, ?_, ?_, ?_⟩
  · rw [totalRevenue, pdSum_parts _ tbl parts hperm]
    rfl
  · intro hg
    rw [totalActive, hint _ hg]
    rfl
  · intro hg
    rw [totalNew, hint _ hg]
    rfl
  · intro hg
    rw [totalReturning, hint _ hg]
    rfl

theorem claim5_witness :
    totalRevenue [intRow, fracRow] = ([[intRow], [fracRow]].map totalRevenue).sum ∧
    totalNew [intRow, fracRow] = ([[intRow], [fracRow]].map totalNew).sum :=
  ⟨(claim5_additivity [intRow, fracRow] [[intRow], [fracRow]] (List.Perm.refl _)).1,
   (claim5_additivity [intRow, fracRow] [[intRow], [fracRow]] (List.Perm.refl _)).2.2.1
     (by with_unfolding_all decide)⟩

/-! ### Claim C6 -/

/-- Claim C6: filtering by the table's own full key set is the identity;
in general the filtered view consists of exactly the rows whose country is
selected (a sublist of the table with the exact multiplicities), and the
empty selection gives the empty table without error. -/
theorem claim6_filter_identity (tbl : List Row) (sel : List String) :
    filterBySelection tbl (allCountries tbl) = tbl ∧
    filterBySelection tbl [] = [] ∧
    List.Sublist (filterBySelection tbl sel) tbl ∧
    ∀ r : Row, (filterBySelection tbl sel).count r =
      if r.country ∈ sel then tbl.count r else 0 := by
  refine ⟨?_, ?_, List.filter_sublist tbl, ?_⟩
  · rw [filterBySelection]
    refine List.filter_eq_self.2 (fun r hr => ?_)
    have hmem : r.country ∈ allCountries tbl := by
      rw [allCountries]
      rw [List.mem_insertionSort, List.mem_dedup]
      exact List.mem_map.2 ⟨r, hr, rfl⟩
    exact List.elem_eq_true_of_mem hmem
  · rw [filterBySelection]
    exact List.filter_eq_nil.2 (fun r _ => by simp [List.contains])
  · intro r
    by_cases hsel : r.country ∈ sel
    · rw [if_pos hsel, filterBySelection]
      exact List.count_filter (List.elem_eq_true_of_mem hsel)
    · rw [if_neg hsel]
      refine List.count_eq_zero.2 (fun hmem => ?_)
      rw [filterBySelection, List.mem_filter] at hmem
      exact hsel (List.mem_of_elem_eq_true hmem.2)

/-! ### Claim C10 -/

/-- Claim C10: the four summary-header totals are total functions of the
table — in this embedding they always produce a (finite) number and cannot
raise; the empty table and the empty selection give totals of `0`; a
missing cell contributes exactly zero to a column sum; and every column sum
is the plain finite sum of its present values with `0` for the missing
ones. -/
theorem claim10_totals_safe :
    (totalActive [] = 0 ∧ totalNew [] = 0 ∧ totalReturning [] = 0 ∧
      totalRevenue [] = 0) ∧
    (∀ tbl : List Row, filterBySelection tbl [] = []) ∧
    (∀ l1 l2 : List (Option Rat), pdSum (l1 ++ none :: l2) = pdSum (l1 ++ l2)) ∧
    (∀ l : List (Option Rat), pdSum l = (l.map (fun v => v.getD 0)).sum) := by
  refine ⟨⟨rfl, rfl, rfl, rfl⟩, ?_, ?_, pdSum_eq_sum⟩
  · intro tbl
    rw [filterBySelection]
    exact List.filter_eq_nil.2 (fun r _ => by simp [List.contains])
  · intro l1 l2
    rw [pdSum_eq_sum, pdSum_eq_sum, List.map_append, List.map_append,
      List.map_cons, List.sum_append, List.sum_append, List.sum_cons]
    simp

/-! ### Sorting: helper lemmas

The stable sort used in `sortValuesDesc` preserves the relative order of any
class of rows that share one key value (stability), on top of the usual
sortedness and permutation facts. -/

theorem filter_orderedInsert_pos {α : Type} (r : α → α → Prop) [DecidableRel r]
    (p : α → Bool) (a : α) (l : List α) (hpa : p a = true)
    (h : ∀ b ∈ l, ¬ r a b → p b = false) :
    (l.orderedInsert r a).filter p = a :: l.filter p := by
  induction l with
  | nil => simp [List.orderedInsert, hpa]
  | cons b l ih =>
    rw [List.orderedInsert]
    by_cases hr : r a b
    · rw [if_pos hr, List.filter_cons_of_pos hpa]
    · rw [if_neg hr]
      have hpb : p b = false := h b (List.mem_cons_self b l) hr
      have hpb2 : ¬ p b = true := by rw [hpb]; exact Bool.false_ne_true
      rw [List.filter_cons_of_neg hpb2, List.filter_cons_of_neg hpb2]
      exact ih (fun c hc hrc => h c (List.mem_cons_of_mem b hc) hrc)

theorem filter_orderedInsert_neg {α : Type} (r : α → α → Prop) [DecidableRel r]
    (p : α → Bool) (a : α) (l : List α) (hpa : p a = false) :
    (l.orderedInsert r a).filter p = l.filter p := by
  have hpa2 : ¬ p a = true := by rw [hpa]; exact Bool.false_ne_true
  induction l with
  | nil => simp [List.orderedInsert, hpa2]
  | cons b l ih =>
    rw [List.orderedInsert]
    by_cases hr : r a b
    · rw [if_pos hr, List.filter_cons_of_neg hpa2]
    · rw [if_neg hr]
      by_cases hpb : p b = true
      · rw [List.filter_cons_of_pos hpb, List.filter_cons_of_pos hpb, ih]
      · rw [List.filter_cons_of_neg hpb, List.filter_cons_of_neg hpb, ih]

/-- Stability of the insertion sort: filtering the sorted list down to any
class of elements that the comparison cannot separate from above returns
those elements in their original order. -/
theorem filter_insertionSort {α : Type} (r : α → α → Prop) [DecidableRel r]
    (p : α → Bool) (hcompat : ∀ a b, p a = true → ¬ r a b → p b = false) :
    ∀ l : List α, (List.insertionSort r l).filter p = l.filter p
  | [] => rfl
  | a :: l => by
    rw [List.insertionSort]
    by_cases hpa : p a = true
    · rw [filter_orderedInsert_pos r p a _ hpa
        (fun b _ hrb => hcompat a b hpa hrb),
        filter_insertionSort r p hcompat l, List.filter_cons_of_pos hpa]
    · have hpa2 : p a = false := by revert hpa; cases p a <;> simp
      rw [filter_orderedInsert_neg r p a _ hpa2,
        filter_insertionSort r p hcompat l, List.filter_cons_of_neg hpa]

theorem descBlockWith_mem {sortk : (Row → Rat) → List Row → List Row}
    (hp : ∀ (f : Row → Rat) (l : List Row), (sortk f l).Perm l)
    {key : Row → Option Rat} {tbl : List Row} {r : Row}
    (hr : r ∈ descBlockWith sortk key tbl) : (key r).isSome = true := by
  rw [descBlockWith, List.mem_reverse] at hr
  have h2 := (hp _ _).mem_iff.1 hr
  rw [List.mem_reverse, List.mem_filter] at h2
  exact h2.2

theorem descBlockWith_perm {sortk : (Row → Rat) → List Row → List Row}
    (hp : ∀ (f : Row → Rat) (l : List Row), (sortk f l).Perm l)
    (key : Row → Option Rat) (tbl : List Row) :
    (descBlockWith sortk key tbl).Perm (tbl.filter (fun r => (key r).isSome)) :=
  ((List.reverse_perm _).trans (hp _ _)).trans (List.reverse_perm _)

theorem descBlockWith_pairwise {sortk : (Row → Rat) → List Row → List Row}
    (hs : ∀ (f : Row → Rat) (l : List Row),
      (sortk f l).Pairwise (fun a b => f a ≤ f b))
    (key : Row → Option Rat) (tbl : List Row) :
    (descBlockWith sortk key tbl).Pairwise
      (fun a b => keyVal key b ≤ keyVal key a) := by
  rw [descBlockWith]
  exact List.pairwise_reverse.mpr (hs _ _)

theorem sortValuesDescWith_eq (sortk : (Row → Rat) → List Row → List Row)
    (key : Row → Option Rat) (tbl : List Row) :
    sortValuesDescWith sortk key tbl =
      descBlockWith sortk key tbl ++ tbl.filter (fun r => !(key r).isSome) := rfl

theorem sortValuesDescWith_perm {sortk : (Row → Rat) → List Row → List Row}
    (hp : ∀ (f : Row → Rat) (l : List Row), (sortk f l).Perm l)
    (key : Row → Option Rat) (tbl : List Row) :
    (sortValuesDescWith sortk key tbl).Perm tbl := by
  rw [sortValuesDescWith_eq]
  exact ((descBlockWith_perm hp key tbl).append (List.Perm.refl _)).trans
    (List.filter_append_perm _ tbl)

theorem sortValuesDescWith_pairwise {sortk : (Row → Rat) → List Row → List Row}
    (hs : ∀ (f : Row → Rat) (l : List Row),
      (sortk f l).Pairwise (fun a b => f a ≤ f b))
    (hp : ∀ (f : Row → Rat) (l : List Row), (sortk f l).Perm l)
    (key : Row → Option Rat) (tbl : List Row) :
    (sortValuesDescWith sortk key tbl).Pairwise
      (fun a b => descKeyRel (key a) (key b)) := by
  rw [sortValuesDescWith_eq]
  have hnone : ∀ r ∈ tbl.filter (fun r => !(key r).isSome), key r = none := by
    intro r hr
    have h2 := (List.mem_filter.1 hr).2
    refine Option.not_isSome_iff_eq_none.1 (fun hs2 => ?_)
    rw [hs2] at h2
    exact absurd h2 (by simp)
  refine List.pairwise_append.2 ⟨?_, ?_, ?_⟩
  · refine (descBlockWith_pairwise hs key tbl).imp_of_mem (fun ha hb hle => ?_)
    obtain ⟨x, hx⟩ := Option.isSome_iff_exists.1 (descBlockWith_mem hp ha)
    obtain ⟨y, hy⟩ := Option.isSome_iff_exists.1 (descBlockWith_mem hp hb)
    refine Or.inr ⟨x, y, hx, hy, ?_⟩
    rw [keyVal, keyVal, hx, hy] at hle
    simpa using hle
  · exact List.pairwise_of_forall_mem_list
      (fun a _ b hb => Or.inl (hnone b hb))
  · exact fun a _ b hb => Or.inl (hnone b hb)

theorem stableSort_sorted (f : Row → Rat) (l : List Row) :
    (stableSort f l).Pairwise (fun a b => f a ≤ f b) :=
  List.sorted_insertionSort (keyLe f) l

theorem stableSort_perm (f : Row → Rat) (l : List Row) :
    (stableSort f l).Perm l :=
  List.perm_insertionSort (keyLe f) l

/-- Stability of the sort under a stable `kind`: the rows carrying any one
key value `k` appear in the output in their original relative order. -/
theorem sortValuesDescStable_stable (key : Row → Option Rat) (tbl : List Row)
    (k : Rat) :
    (sortValuesDescStable key tbl).filter (fun r => decide (key r = some k)) =
      tbl.filter (fun r => decide (key r = some k)) := by
  set p : Row → Bool := fun r => decide (key r = some k) with hp
  have hcompat : ∀ a b : Row, p a = true → ¬ keyLe (keyVal key) a b →
      p b = false := by
    intro a b hpa hab
    have hka : key a = some k := of_decide_eq_true hpa
    rw [keyLe, keyVal, keyVal, hka] at hab
    simp only [Option.getD_some] at hab
    have hlt : keyVal key b < k := lt_of_not_le hab
    refine decide_eq_false (fun hkb : key b = some k => ?_)
    rw [keyVal, hkb] at hlt
    simp at hlt
  rw [sortValuesDescStable, sortValuesDescWith_eq, List.filter_append]
  have h2 : (tbl.filter (fun r => !(key r).isSome)).filter p = [] := by
    refine List.filter_eq_nil_iff.2 (fun r hr hc => ?_)
    have hnone := (List.mem_filter.1 hr).2
    have hk : key r = some k := of_decide_eq_true hc
    rw [hk] at hnone
    exact absurd hnone (by simp)
  have h1 : (descBlockWith stableSort key tbl).filter p =
      (tbl.filter (fun r => (key r).isSome)).filter p := by
    rw [descBlockWith, stableSort, List.filter_reverse,
      filter_insertionSort _ p hcompat, List.filter_reverse,
      List.reverse_reverse]
  rw [h1, h2, List.append_nil, List.filter_filter]
  refine List.filter_congr (fun r _ => ?_)
  simp only [hp]
  by_cases hk : key r = some k
  · simp [hk]
  · simp [hk]

/-- A stable kernel makes `top_by` idempotent: its output is already
descending with at most `n` rows, the stable sort leaves a sorted list
untouched, and the truncation is then a no-op. -/
theorem topByStable_idem (key : Row → Option Rat) (n : Nat) (tbl : List Row) :
    topByStable key n (topByStable key n tbl) = topByStable key n tbl := by
  have hsplit : topByStable key n tbl =
      (descBlockWith stableSort key tbl).take n ++
        (tbl.filter (fun r => !(key r).isSome)).take
          (n - (descBlockWith stableSort key tbl).length) := by
    rw [topByStable, topByWith, sortValuesDescWith_eq,
      List.take_append_eq_append_take]
  have hdmem : ∀ r ∈ (descBlockWith stableSort key tbl).take n,
      (key r).isSome = true :=
    fun r hr => descBlockWith_mem stableSort_perm
      ((List.take_sublist _ _).subset hr)
  have hnsmem : ∀ r ∈ (tbl.filter (fun r => !(key r).isSome)).take
      (n - (descBlockWith stableSort key tbl).length), (!(key r).isSome) = true :=
    fun r hr =>
      (List.mem_filter.1 ((List.take_sublist _ _).subset hr)).2
  have h1 : (topByStable key n tbl).filter (fun r => (key r).isSome) =
      (descBlockWith stableSort key tbl).take n := by
    rw [hsplit, List.filter_append, List.filter_eq_self.2 hdmem,
      List.filter_eq_nil_iff.2 (fun r hr hc => by
        have h3 := hnsmem r hr
        rw [hc] at h3
        exact absurd h3 (by simp)),
      List.append_nil]
  have h2 : (topByStable key n tbl).filter (fun r => !(key r).isSome) =
      (tbl.filter (fun r => !(key r).isSome)).take
        (n - (descBlockWith stableSort key tbl).length) := by
    rw [hsplit, List.filter_append,
      List.filter_eq_nil_iff.2 (fun r hr hc => by
        have h3 := hdmem r hr
        rw [h3] at hc
        exact absurd hc (by simp)),
      List.filter_eq_self.2 hnsmem, List.nil_append]
  have hdpair : ((descBlockWith stableSort key tbl).take n).Pairwise
      (fun a b => keyVal key b ≤ keyVal key a) :=
    List.Pairwise.sublist (List.take_sublist n _)
      (descBlockWith_pairwise stableSort_sorted key tbl)
  have hsorted : List.Sorted (keyLe (keyVal key))
      ((descBlockWith stableSort key tbl).take n).reverse :=
    List.pairwise_reverse.mpr hdpair
  have hdesc : descBlockWith stableSort key (topByStable key n tbl) =
      (descBlockWith stableSort key tbl).take n := by
    rw [descBlockWith, h1, stableSort,
      List.Sorted.insertionSort_eq hsorted, List.reverse_reverse]
  have hfix : sortValuesDescWith stableSort key (topByStable key n tbl) =
      topByStable key n tbl := by
    rw [sortValuesDescWith_eq, hdesc, h2, ← hsplit]
  have hlen : (topByStable key n tbl).length ≤ n := by
    rw [topByStable, topByWith, List.length_take]
    exact min_le_left _ _
  rw [topByStable, topByWith, hfix]
  exact List.take_of_length_le hlen

/-- Re-sorting its own output leaves `top_by` with the same rows for every
kernel: the output has at most `n` rows, so the second truncation keeps the
whole re-sorted list, a permutation of the first output. -/
theorem topByWith_idem_perm {sortk : (Row → Rat) → List Row → List Row}
    (hp : ∀ (f : Row → Rat) (l : List Row), (sortk f l).Perm l)
    (key : Row → Option Rat) (n : Nat) (tbl : List Row) :
    (topByWith sortk key n (topByWith sortk key n tbl)).Perm
      (topByWith sortk key n tbl) := by
  have hperm : (sortValuesDescWith sortk key (topByWith sortk key n tbl)).Perm
      (topByWith sortk key n tbl) :=
    sortValuesDescWith_perm hp key _
  have hlen : (topByWith sortk key n tbl).length ≤ n := by
    rw [topByWith, List.length_take]
    exact min_le_left _ _
  have h4 : topByWith sortk key n (topByWith sortk key n tbl) =
      sortValuesDescWith sortk key (topByWith sortk key n tbl) := by
    rw [topByWith]
    exact List.take_of_length_le (by rw [hperm.length_eq]; exact hlen)
  rw [h4]
  exact hperm

/-! ### Claim C4 -/

set_option maxRecDepth 40000 in
/-- Claim C4 is false as stated: the stability conjunct ("rows with equal
values keep their original relative order") is not guaranteed by
`sort_values` with its default `kind="quicksort"`.  On seventeen rows tied
on the sort column — the first size past the kernel's insertion-sort
regime — the default kernel returns the tied rows out of their original
order (while still returning a permutation of the table). -/
theorem claim4_counterexample :
    (sortValuesDescQuick (fun r => r.activeUsers) tiedTbl).filter
        (fun r => decide (r.activeUsers = some 1)) ≠
      tiedTbl.filter (fun r => decide (r.activeUsers = some 1)) ∧
    (sortValuesDescQuick (fun r => r.activeUsers) tiedTbl).Perm tiedTbl := by
  constructor
  · with_unfolding_all decide
  · with_unfolding_all decide

/-- Claim C4 as amended: for every argsort kernel that sorts and permutes —
all numpy guarantees for any `kind`, hence for the program however the kind
is chosen — `top_by(table, column, n)` is the `n`-prefix (length
`min n (length table)`) of a permutation of the table that is descending on
the column with missing keys after all present ones; the order of tied rows
is kernel-dependent: the explicitly stable kinds (`stable` / `mergesort`)
preserve the original relative order of every tie class, while the default
`kind="quicksort"` does not (see the counterexample). -/
theorem claim4_top_by (sortk : (Row → Rat) → List Row → List Row)
    (hs : ∀ (f : Row → Rat) (l : List Row),
      (sortk f l).Pairwise (fun a b => f a ≤ f b))
    (hp : ∀ (f : Row → Rat) (l : List Row), (sortk f l).Perm l)
    (key : Row → Option Rat) (tbl : List Row) (n : Nat) :
    (sortValuesDescWith sortk key tbl).Perm tbl ∧
    topByWith sortk key n tbl = (sortValuesDescWith sortk key tbl).take n ∧
    (topByWith sortk key n tbl).length = min n tbl.length ∧
    (topByWith sortk key n tbl).Pairwise
      (fun a b => descKeyRel (key a) (key b)) ∧
    (∀ k : Rat,
      (sortValuesDescStable key tbl).filter (fun r => decide (key r = some k)) =
        tbl.filter (fun r => decide (key r = some k))) := by
  refine ⟨sortValuesDescWith_perm hp key tbl, rfl, ?_, ?_,
    sortValuesDescStable_stable key tbl⟩
  · rw [topByWith, List.length_take,
      (sortValuesDescWith_perm hp key tbl).length_eq]
  · exact List.Pairwise.sublist (List.take_sublist n _)
      (sortValuesDescWith_pairwise hs hp key tbl)

theorem claim4_witness :
    (sortValuesDescWith stableSort (fun r => r.activeUsers)
      [intRow, fracRow]).Perm [intRow, fracRow] ∧
    topByWith stableSort (fun r => r.activeUsers) 1 [intRow, fracRow] =
      (sortValuesDescWith stableSort (fun r => r.activeUsers)
        [intRow, fracRow]).take 1 ∧
    (topByWith stableSort (fun r => r.activeUsers) 1 [intRow, fracRow]).length =
      min 1 ([intRow, fracRow] : List Row).length ∧
    (topByWith stableSort (fun r => r.activeUsers) 1 [intRow, fracRow]).Pairwise
      (fun a b => descKeyRel a.activeUsers b.activeUsers) ∧
    (sortValuesDescStable (fun r => r.activeUsers) [intRow, fracRow]).filter
        (fun r => decide (r.activeUsers = some 4)) =
      ([intRow, fracRow] : List Row).filter
        (fun r => decide (r.activeUsers = some 4)) := by
  have T := claim4_top_by stableSort stableSort_sorted stableSort_perm
    (fun r => r.activeUsers) [intRow, fracRow] 1
  exact ⟨T.1, T.2.1, T.2.2.1, T.2.2.2.1, T.2.2.2.2 4⟩

/-! ### Claim C7 -/

set_option maxRecDepth 40000 in
/-- Claim C7 is false as stated: `top_by` is not idempotent under the
default `kind="quicksort"`.  On seventeen tied rows with `n = 17` (inside
the slider's 3–30 range) the second application permutes the ties of the
first application's output again, so the output changes. -/
theorem claim7_counterexample :
    topByQuick (fun r => r.activeUsers) 17
        (topByQuick (fun r => r.activeUsers) 17 tiedTbl) ≠
      topByQuick (fun r => r.activeUsers) 17 tiedTbl := by
  with_unfolding_all decide

/-- Claim C7 as amended: applying `top_by` with the same column and the
same `n` to its own output returns the same rows — a permutation of that
output, for every argsort kernel that permutes — and returns it *unchanged*
(true idempotence) under the explicitly stable kinds; under the default
`kind="quicksort"` the tie order may change (see the counterexample). -/
theorem claim7_top_by_idempotent (sortk : (Row → Rat) → List Row → List Row)
    (hp : ∀ (f : Row → Rat) (l : List Row), (sortk f l).Perm l)
    (key : Row → Option Rat) (n : Nat) (tbl : List Row) :
    (topByWith sortk key n (topByWith sortk key n tbl)).Perm
      (topByWith sortk key n tbl) ∧
    topByStable key n (topByStable key n tbl) = topByStable key n tbl :=
  ⟨topByWith_idem_perm hp key n tbl, topByStable_idem key n tbl⟩

theorem claim7_witness :
    (topByWith stableSort (fun r => r.activeUsers) 1
        (topByWith stableSort (fun r => r.activeUsers) 1
          [intRow, fracRow])).Perm
      (topByWith stableSort (fun r => r.activeUsers) 1 [intRow, fracRow]) ∧
    topByStable (fun r => r.activeUsers) 1
        (topByStable (fun r => r.activeUsers) 1 [intRow, fracRow]) =
      topByStable (fun r => r.activeUsers) 1 [intRow, fracRow] :=
  claim7_top_by_idempotent stableSort stableSort_perm
    (fun r => r.activeUsers) 1 [intRow, fracRow]

end GA4
